import Mathlib

/-!
Verification of the ADC speed controller (ATMega328PAnalogReader.h).

Shallow embedding conventions:
* Machine integers are modelled as Nat with explicit reductions where the
  C++ code can overflow or truncate: the uint32 accumulator reduces mod
  4294967296 at every addition, and every uint16 value is reduced mod 65536.
* The external sampling primitive (analogRead) is modelled as a stream
  f : Nat -> Nat, where f k is the value returned by the k-th call made by
  the read operation under consideration.  The hardware contract says each
  sample fits the native 10-bit resolution (at most 1023); theorems take
  that as a hypothesis where they need it.
* On the AVR target, int is 16 bits wide, so the constexpr sample counts
  (1 << AVG_POW2, 1 << totalPow2) are compile-time rejected once the shift
  amount exceeds what a 16-bit quantity holds.  Theorems about the read
  loops therefore carry the corresponding bound (shift amount at most 15)
  as a hypothesis; for OUTPUT_BITS in 10..16 alone the bound is automatic.
-/

namespace ATMega328P

/-- Mathematical sum of the first n samples of the stream f (no widths).
Used to state what the uint32 accumulation loop computes. -/
def sampleSum (f : Nat → Nat) : Nat → Nat
  | 0 => 0
  | n + 1 => sampleSum f n + f n

/-- The accumulation loop shared by all averaged reads:
uint32_t sum = 0; for (i = 0; i < n; ++i) sum += analogRead(pin).
Each addition reduces mod 2^32 (uint32 wraparound). -/
def sumLoop (f : Nat → Nat) : Nat → Nat
  | 0 => 0
  | n + 1 => (sumLoop f n + f n) % 4294967296

/-- State of the controller object together with the hardware ADCSRA
register it manipulates.  Fields mirror the private members
uint8_t _prescalerBits, uint8_t _backupADCSRA, bool _initialized
(the last is named _isActive here because of naming restrictions in this
development; the spec calls it isActive). -/
structure Machine where
  ADCSRA : Nat
  _prescalerBits : Nat
  _backupADCSRA : Nat
  _isActive : Bool

/-- bool begin(uint8_t prescalerBits):
  _prescalerBits = prescalerBits & 0x07;
  _backupADCSRA = ADCSRA;
  ADCSRA = (ADCSRA & 0b11111000) | _prescalerBits;
  _initialized = true;  return initialized();
The Nat argument is first reduced mod 256 (uint8_t parameter). -/
def begin (p : Nat) (m : Machine) : Machine × Bool :=
  let pb := (p % 256) &&& 7
  let m2 : Machine :=
    { ADCSRA := (m.ADCSRA &&& 0b11111000) ||| pb
      _prescalerBits := pb
      _backupADCSRA := m.ADCSRA
      _isActive := true }
  (m2, m2._isActive)

/-- bool initialized() const (the isActive query of the spec). -/
def isActive (m : Machine) : Bool := m._isActive

/-- void end():
  if (initialized()) { ADCSRA = _backupADCSRA; }
  _initialized = false; -/
def end_ (m : Machine) : Machine :=
  let m1 := if m._isActive then { m with ADCSRA := m._backupADCSRA } else m
  { m1 with _isActive := false }

/-- uint16_t read(uint8_t pin): return analogRead(pin); (one call,
value truncated into the uint16 return type). -/
def read (f : Nat → Nat) : Nat := f 0 % 65536

/-- uint16_t readAveraged<AVG_POW2>(pin): sums 2^AVG_POW2 samples into a
uint32 accumulator and returns sum >> AVG_POW2 as uint16. -/
def readAveraged (A : Nat) (f : Nat → Nat) : Nat :=
  (sumLoop f (2 ^ A) >>> A) % 65536

/-- uint16_t readHighRes<OUTPUT_BITS>(pin): extraBits = OUTPUT_BITS - 10,
sums 2^(2*extraBits) samples, avg = uint16(sum >> (2*extraBits)),
returns avg << extraBits (computed in 16-bit unsigned on the AVR target). -/
def readHighRes (B : Nat) (f : Nat → Nat) : Nat :=
  (((sumLoop f (2 ^ (2 * (B - 10))) >>> (2 * (B - 10))) % 65536)
      <<< (B - 10)) % 65536

/-- uint16_t readHighResAveraged<OUTPUT_BITS, AVG_POW2>(pin):
totalPow2 = 2*extraBits + AVG_POW2, sums 2^totalPow2 samples,
avg = uint16(sum >> totalPow2), returns avg << extraBits. -/
def readHighResAveraged (B A : Nat) (f : Nat → Nat) : Nat :=
  (((sumLoop f (2 ^ (2 * (B - 10) + A)) >>> (2 * (B - 10) + A)) % 65536)
      <<< (B - 10)) % 65536

/-- Two-stage reference computation, following the words of the spec: first
the oversample-decimate step (each group of 2^(2*extraBits) consecutive
samples is summed and the group sum shifted down by 2*extraBits, giving one
decimated native-resolution value per group), then power-of-two averaging of
the 2^AVG_POW2 decimated values, and finally the same widening shift by
extraBits into the uint16 result. -/
def twoStageHighResAveraged (B A : Nat) (f : Nat → Nat) : Nat :=
  let e := B - 10
  let groupLen := 2 ^ (2 * e)
  let decimated := fun j => sampleSum (fun i => f (j * groupLen + i)) groupLen >>> (2 * e)
  ((sampleSum decimated (2 ^ A) >>> A) <<< e) % 65536

/-- State-threaded accumulation loop: each iteration calls the sampling
primitive, which by its contract leaves the controller state and the ADC
control register untouched, and adds into the uint32 accumulator. -/
def sumLoopM (m : Machine) (f : Nat → Nat) : Nat → Nat × Machine
  | 0 => (0, m)
  | n + 1 =>
    let p := sumLoopM m f n
    ((p.1 + f n) % 4294967296, p.2)

/-- State-threaded read (single call). -/
def readM (m : Machine) (f : Nat → Nat) : Nat × Machine := (f 0 % 65536, m)

/-- State-threaded readAveraged. -/
def readAveragedM (A : Nat) (m : Machine) (f : Nat → Nat) : Nat × Machine :=
  let p := sumLoopM m f (2 ^ A)
  ((p.1 >>> A) % 65536, p.2)

/-- State-threaded readHighRes. -/
def readHighResM (B : Nat) (m : Machine) (f : Nat → Nat) : Nat × Machine :=
  let p := sumLoopM m f (2 ^ (2 * (B - 10)))
  ((((p.1 >>> (2 * (B - 10))) % 65536) <<< (B - 10)) % 65536, p.2)

/-- State-threaded readHighResAveraged. -/
def readHighResAveragedM (B A : Nat) (m : Machine) (f : Nat → Nat) : Nat × Machine :=
  let p := sumLoopM m f (2 ^ (2 * (B - 10) + A))
  ((((p.1 >>> (2 * (B - 10) + A)) % 65536) <<< (B - 10)) % 65536, p.2)

/-! Helper lemmas about the sample sums. -/

lemma sampleSum_le (f : Nat → Nat) (c n : Nat) (h : ∀ k, f k ≤ c) :
    sampleSum f n ≤ n * c := by
  induction n with
  | zero => simp [sampleSum]
  | succ n ih =>
    simp only [sampleSum]
    calc sampleSum f n + f n ≤ n * c + c := Nat.add_le_add ih (h n)
      _ = (n + 1) * c := by ring

lemma sumLoop_eq_sampleSum (f : Nat → Nat) (n : Nat)
    (h : sampleSum f n < 4294967296) : sumLoop f n = sampleSum f n := by
  induction n with
  | zero => rfl
  | succ n ih =>
    have hn : sampleSum f n < 4294967296 :=
      Nat.lt_of_le_of_lt (Nat.le_add_right _ _) h
    simp only [sumLoop, sampleSum] at *
    rw [ih hn, Nat.mod_eq_of_lt h]

lemma sampleSum_congr (f g : Nat → Nat) (n : Nat)
    (h : ∀ k, k < n → f k = g k) : sampleSum f n = sampleSum g n := by
  induction n with
  | zero => rfl
  | succ n ih =>
    simp only [sampleSum]
    rw [ih (fun k hk => h k (Nat.lt_succ_of_lt hk)), h n (Nat.lt_succ_self n)]

lemma sumLoop_congr (f g : Nat → Nat) (n : Nat)
    (h : ∀ k, k < n → f k = g k) : sumLoop f n = sumLoop g n := by
  induction n with
  | zero => rfl
  | succ n ih =>
    simp only [sumLoop]
    rw [ih (fun k hk => h k (Nat.lt_succ_of_lt hk)), h n (Nat.lt_succ_self n)]

lemma sampleSum_const (f : Nat → Nat) (n S : Nat)
    (h : ∀ k, k < n → f k = S) : sampleSum f n = n * S := by
  induction n with
  | zero => simp [sampleSum]
  | succ n ih =>
    simp only [sampleSum]
    rw [ih (fun k hk => h k (Nat.lt_succ_of_lt hk)), h n (Nat.lt_succ_self n)]
    ring

lemma sampleSum_add (f : Nat → Nat) (a b : Nat) :
    sampleSum f (a + b) = sampleSum f a + sampleSum (fun i => f (a + i)) b := by
  induction b with
  | zero => simp [sampleSum]
  | succ b ih =>
    show sampleSum f ((a + b) + 1) = _
    simp only [sampleSum]
    rw [ih, Nat.add_assoc]

lemma sampleSum_groups (f : Nat → Nat) (m g : Nat) :
    sampleSum f (g * m)
      = sampleSum (fun j => sampleSum (fun i => f (j * m + i)) m) g := by
  induction g with
  | zero => simp [sampleSum]
  | succ g ih =>
    have h1 : (g + 1) * m = g * m + m := by ring
    rw [h1, sampleSum_add]
    simp only [sampleSum]
    rw [ih]

lemma sampleSum_factor (h : Nat → Nat) (c n : Nat)
    (hd : ∀ j, j < n → c ∣ h j) :
    sampleSum h n = c * sampleSum (fun j => h j / c) n := by
  induction n with
  | zero => simp [sampleSum]
  | succ n ih =>
    simp only [sampleSum]
    rw [ih (fun j hj => hd j (Nat.lt_succ_of_lt hj)), Nat.mul_add,
      Nat.mul_div_cancel' (hd n (Nat.lt_succ_self n))]

lemma div_le_bound (s n c : Nat) (hn : 0 < n) (h : s ≤ n * c) : s / n ≤ c := by
  calc s / n ≤ (n * c) / n := Nat.div_le_div_right h
    _ = c := Nat.mul_div_cancel_left c hn

lemma sum_lt_u32 (f : Nat → Nat) (n : Nat) (hn : n ≤ 15)
    (hf : ∀ k, f k ≤ 1023) : sampleSum f (2 ^ n) < 4294967296 := by
  have h1 : sampleSum f (2 ^ n) ≤ 2 ^ n * 1023 := sampleSum_le f 1023 _ hf
  have h2 : (2 : Nat) ^ n ≤ 2 ^ 15 := Nat.pow_le_pow_right (by norm_num) hn
  have h3 : (2 : Nat) ^ n * 1023 ≤ 2 ^ 15 * 1023 := Nat.mul_le_mul h2 (Nat.le_refl _)
  omega

lemma avg_le (f : Nat → Nat) (n : Nat) (hf : ∀ k, f k ≤ 1023) :
    sampleSum f (2 ^ n) / 2 ^ n ≤ 1023 :=
  div_le_bound _ _ _ (pow_pos (by norm_num) n) (sampleSum_le f 1023 _ hf)

lemma readAveraged_eval (A : Nat) (f : Nat → Nat) (hA : A ≤ 15)
    (hf : ∀ k, f k ≤ 1023) :
    readAveraged A f = sampleSum f (2 ^ A) / 2 ^ A := by
  unfold readAveraged
  rw [sumLoop_eq_sampleSum f _ (sum_lt_u32 f A hA hf), Nat.shiftRight_eq_div_pow]
  exact Nat.mod_eq_of_lt (lt_of_le_of_lt (avg_le f A hf) (by norm_num))

lemma highRes_core (e t : Nat) (f : Nat → Nat) (he : e ≤ 6) (ht : t ≤ 15)
    (hf : ∀ k, f k ≤ 1023) :
    (((sumLoop f (2 ^ t) >>> t) % 65536) <<< e) % 65536
      = (sampleSum f (2 ^ t) / 2 ^ t) * 2 ^ e := by
  have hq := avg_le f t hf
  rw [sumLoop_eq_sampleSum f _ (sum_lt_u32 f t ht hf), Nat.shiftRight_eq_div_pow,
    Nat.mod_eq_of_lt (lt_of_le_of_lt hq (by norm_num)), Nat.shiftLeft_eq]
  apply Nat.mod_eq_of_lt
  have h2 : (2 : Nat) ^ e ≤ 2 ^ 6 := Nat.pow_le_pow_right (by norm_num) he
  have h3 := Nat.mul_le_mul hq h2
  omega

set_option maxRecDepth 8192 in
lemma begin_bits_aux : ∀ V : Nat, V < 256 → ∀ q : Nat, q < 8 →
    (((V &&& 248) ||| q) % 8 = q ∧ ((V &&& 248) ||| q) / 8 = V / 8) := by decide

lemma masked_eq_mod (p : Nat) : (p % 256) &&& 7 = p % 8 := by
  have h := Nat.and_pow_two_sub_one_eq_mod (p % 256) 3
  norm_num at h
  rw [h]

/-! The claims. -/

/-- Claim C1: for every initial control register value, begin (with any
prescaler argument) followed by end restores the register to exactly the
initial value, the saved snapshot being written back verbatim. -/
theorem adc_roundTrip_restores (p : Nat) (m : Machine) :
    (end_ (begin p m).1).ADCSRA = m.ADCSRA
    ∧ ((begin p m).1)._backupADCSRA = m.ADCSRA := ⟨rfl, rfl⟩

/-- Claim C2: begin stores the pre-call register value unmodified as the
snapshot, sets the low 3 register bits to the masked prescaler argument
while preserving all the other bits, marks the controller active, and
returns true. -/
theorem begin_sets_prescaler_and_snapshot (p : Nat) (m : Machine)
    (hV : m.ADCSRA < 256) :
    ((begin p m).1)._backupADCSRA = m.ADCSRA
    ∧ ((begin p m).1).ADCSRA % 8 = p % 8
    ∧ ((begin p m).1).ADCSRA / 8 = m.ADCSRA / 8
    ∧ ((begin p m).1)._isActive = true
    ∧ (begin p m).2 = true := by
  have hq : (p % 256) &&& 7 < 8 :=
    Nat.lt_of_le_of_lt Nat.and_le_right (by norm_num)
  obtain ⟨h1, h2⟩ := begin_bits_aux m.ADCSRA hV ((p % 256) &&& 7) hq
  refine ⟨rfl, ?_, ?_, rfl, rfl⟩
  · show ((m.ADCSRA &&& 248) ||| ((p % 256) &&& 7)) % 8 = p % 8
    rw [h1, masked_eq_mod]
  · show ((m.ADCSRA &&& 248) ||| ((p % 256) &&& 7)) / 8 = m.ADCSRA / 8
    exact h2

/-- Witness for C2 at the scenario of the spec: register 0b10100111 = 167,
begin 4. -/
theorem begin_sets_prescaler_and_snapshot_witness :
    ((begin 4 ⟨167, 0, 0, false⟩).1)._backupADCSRA = 167
    ∧ ((begin 4 ⟨167, 0, 0, false⟩).1).ADCSRA % 8 = 4 % 8
    ∧ ((begin 4 ⟨167, 0, 0, false⟩).1).ADCSRA / 8 = 167 / 8
    ∧ ((begin 4 ⟨167, 0, 0, false⟩).1)._isActive = true
    ∧ (begin 4 ⟨167, 0, 0, false⟩).2 = true :=
  begin_sets_prescaler_and_snapshot 4 ⟨167, 0, 0, false⟩ (by norm_num)

/-- Claim C7: end on an inactive controller leaves the register (indeed the
whole state) unchanged and leaves the active flag false; every end call
ends inactive, and a second end is a no-op. -/
theorem end_inactive_noop_idempotent (m m2 : Machine)
    (h : m._isActive = false) :
    (end_ m).ADCSRA = m.ADCSRA ∧ end_ m = m
    ∧ (end_ m2)._isActive = false ∧ end_ (end_ m2) = end_ m2 := by
  obtain ⟨a, b, c, d⟩ := m
  have hd : d = false := h
  subst hd
  refine ⟨rfl, rfl, rfl, ?_⟩
  obtain ⟨a2, b2, c2, d2⟩ := m2
  cases d2 <;> rfl

/-- Witness for C7 on concrete machine states. -/
theorem end_inactive_noop_idempotent_witness :
    (end_ ⟨5, 1, 2, false⟩).ADCSRA = 5
    ∧ end_ ⟨5, 1, 2, false⟩ = ⟨5, 1, 2, false⟩
    ∧ (end_ ⟨9, 0, 3, true⟩)._isActive = false
    ∧ end_ (end_ ⟨9, 0, 3, true⟩) = end_ ⟨9, 0, 3, true⟩ :=
  end_inactive_noop_idempotent ⟨5, 1, 2, false⟩ ⟨9, 0, 3, true⟩ rfl

/-- Claim C8: a second begin while active overwrites the snapshot with the
already-modified register value (V and 0b11111000, or-ed with the low 3
bits of the first prescaler argument), and a subsequent end restores that
value rather than the original V. -/
theorem nested_begin_resnapshots (p1 p2 : Nat) (m : Machine) :
    ((begin p2 (begin p1 m).1).1)._backupADCSRA
        = (m.ADCSRA &&& 0b11111000) ||| (p1 &&& 7)
    ∧ (end_ (begin p2 (begin p1 m).1).1).ADCSRA
        = (m.ADCSRA &&& 0b11111000) ||| (p1 &&& 7) := by
  have h2 := Nat.and_pow_two_sub_one_eq_mod p1 3
  norm_num at h2
  have h : (p1 % 256) &&& 7 = p1 &&& 7 := by rw [masked_eq_mod, h2]
  constructor
  · show (m.ADCSRA &&& 248) ||| ((p1 % 256) &&& 7) = _
    rw [h]
  · show (m.ADCSRA &&& 248) ||| ((p1 % 256) &&& 7) = _
    rw [h]

lemma sumLoopM_eq (m : Machine) (f : Nat → Nat) (n : Nat) :
    sumLoopM m f n = (sumLoop f n, m) := by
  induction n with
  | zero => rfl
  | succ n ih => simp only [sumLoopM, sumLoop, ih]

/-- Claim C9: the four read operations return the controller state and the
ADC control register exactly as they found them, and compute the same
values as the pure sample-stream functions; only the sampling primitive is
invoked. -/
theorem reads_frame (B A : Nat) (m : Machine) (f : Nat → Nat) :
    readM m f = (read f, m)
    ∧ readAveragedM A m f = (readAveraged A f, m)
    ∧ readHighResM B m f = (readHighRes B f, m)
    ∧ readHighResAveragedM B A m f = (readHighResAveraged B A f, m) := by
  refine ⟨rfl, ?_, ?_, ?_⟩ <;>
    simp only [readAveragedM, readHighResM, readHighResAveragedM,
      readAveraged, readHighRes, readHighResAveraged, sumLoopM_eq]

lemma sampleSum_one (f : Nat → Nat) : sampleSum f 1 = f 0 := by
  show sampleSum f 0 + f 0 = f 0
  show 0 + f 0 = f 0
  exact Nat.zero_add _

/-- Claim C5: readAveraged sums 2^AVG_POW2 consecutive samples and returns
the sum shifted right by AVG_POW2; with AVG_POW2 = 0 it returns the single
sample unchanged, and on a constant stream S it returns exactly S. -/
theorem readAveraged_spec (A S : Nat) (f : Nat → Nat) (hA : A ≤ 15)
    (hf : ∀ k, f k ≤ 1023) (hS : S ≤ 1023) :
    readAveraged A f = sampleSum f (2 ^ A) / 2 ^ A
    ∧ readAveraged 0 f = f 0
    ∧ readAveraged A (fun _ => S) = S := by
  refine ⟨readAveraged_eval A f hA hf, ?_, ?_⟩
  · rw [readAveraged_eval 0 f (by norm_num) hf, pow_zero, sampleSum_one,
      Nat.div_one]
  · rw [readAveraged_eval A (fun _ => S) hA (fun _ => hS),
      sampleSum_const _ _ S (fun _ _ => rfl),
      Nat.mul_div_cancel_left S (pow_pos (by norm_num) A)]

/-- Witness for C5: four samples of value 100 average to 100. -/
theorem readAveraged_spec_witness :
    readAveraged 2 (fun _ => 100) = sampleSum (fun _ => 100) (2 ^ 2) / 2 ^ 2
    ∧ readAveraged 0 (fun _ => 100) = 100
    ∧ readAveraged 2 (fun _ => 100) = 100 :=
  readAveraged_spec 2 100 (fun _ => 100) (by norm_num) (fun _ => by norm_num)
    (by norm_num)

/-- Claim C6: readHighRes sums 2^(2*extraBits) samples and returns
(sum >> (2*extraBits)) << extraBits, so the result is divisible by
2^extraBits, and with OUTPUT_BITS = 10 it returns the single sample. -/
theorem readHighRes_spec (B : Nat) (f : Nat → Nat) (hB1 : 10 ≤ B)
    (hB2 : B ≤ 16) (hf : ∀ k, f k ≤ 1023) :
    readHighRes B f
        = (sampleSum f (2 ^ (2 * (B - 10))) / 2 ^ (2 * (B - 10))) * 2 ^ (B - 10)
    ∧ 2 ^ (B - 10) ∣ readHighRes B f
    ∧ readHighRes 10 f = f 0 := by
  have he : B - 10 ≤ 6 := by omega
  have ht : 2 * (B - 10) ≤ 15 := by omega
  have h1 : readHighRes B f
      = (sampleSum f (2 ^ (2 * (B - 10))) / 2 ^ (2 * (B - 10))) * 2 ^ (B - 10) :=
    highRes_core (B - 10) (2 * (B - 10)) f he ht hf
  have h10 : readHighRes 10 f
      = (sampleSum f (2 ^ (2 * (10 - 10))) / 2 ^ (2 * (10 - 10))) * 2 ^ (10 - 10) :=
    highRes_core (10 - 10) (2 * (10 - 10)) f (by norm_num) (by norm_num) hf
  refine ⟨h1, ?_, ?_⟩
  · rw [h1]; exact dvd_mul_left _ _
  · rw [h10]; simp [sampleSum_one]

/-- Witness for C6 at the scenario of the spec: constant 500 at 12 output
bits. -/
theorem readHighRes_spec_witness :
    readHighRes 12 (fun _ => 500)
        = (sampleSum (fun _ => 500) (2 ^ (2 * (12 - 10))) / 2 ^ (2 * (12 - 10)))
            * 2 ^ (12 - 10)
    ∧ 2 ^ (12 - 10) ∣ readHighRes 12 (fun _ => 500)
    ∧ readHighRes 10 (fun _ => 500) = 500 :=
  readHighRes_spec 12 (fun _ => 500) (by norm_num) (by norm_num)
    (fun _ => by norm_num)

/-- Claim C10: with all samples at most 1023, readHighRes stays below
2^OUTPUT_BITS and readAveraged stays at most 1023. -/
theorem read_output_bounds (B A : Nat) (f : Nat → Nat) (hB1 : 10 ≤ B)
    (hB2 : B ≤ 16) (hA : A ≤ 15) (hf : ∀ k, f k ≤ 1023) :
    readHighRes B f < 2 ^ B ∧ readAveraged A f ≤ 1023 := by
  constructor
  · have he : B - 10 ≤ 6 := by omega
    have ht : 2 * (B - 10) ≤ 15 := by omega
    have h1 : readHighRes B f
        = (sampleSum f (2 ^ (2 * (B - 10))) / 2 ^ (2 * (B - 10))) * 2 ^ (B - 10) :=
      highRes_core (B - 10) (2 * (B - 10)) f he ht hf
    rw [h1]
    have hq := avg_le f (2 * (B - 10)) hf
    have hlt : sampleSum f (2 ^ (2 * (B - 10))) / 2 ^ (2 * (B - 10)) < 2 ^ 10 := by
      omega
    have h2 := mul_lt_mul_of_pos_right hlt
      (pow_pos (by norm_num : (0 : Nat) < 2) (B - 10))
    have heq : (2 : Nat) ^ 10 * 2 ^ (B - 10) = 2 ^ B := by
      rw [← pow_add]; congr 1; omega
    omega
  · rw [readAveraged_eval A f hA hf]; exact avg_le f A hf

/-- Witness for C10 at the extreme configuration and sample value. -/
theorem read_output_bounds_witness :
    readHighRes 16 (fun _ => 1023) < 2 ^ 16
    ∧ readAveraged 0 (fun _ => 1023) ≤ 1023 :=
  read_output_bounds 16 0 (fun _ => 1023) (by norm_num) (by norm_num)
    (by norm_num) (fun _ => by norm_num)

/-- Claim C4: on every configuration that compiles on the 16-bit AVR target
(sample count 2^n with n at most 15), the accumulated sum of the 2^n
samples fits the 32-bit accumulator with no wraparound, the loop adds all
2^n samples, and the result depends on exactly the first 2^n samples of
the stream. -/
theorem reads_complete_no_overflow (B A : Nat) (f g : Nat → Nat)
    (hB1 : 10 ≤ B) (hB2 : B ≤ 16) (ht : 2 * (B - 10) + A ≤ 15)
    (hf : ∀ k, f k ≤ 1023)
    (hfg : ∀ k, k < 2 ^ (2 * (B - 10) + A) → f k = g k) :
    sampleSum f (2 ^ (2 * (B - 10) + A)) < 4294967296
    ∧ sumLoop f (2 ^ (2 * (B - 10) + A)) = sampleSum f (2 ^ (2 * (B - 10) + A))
    ∧ sampleSum f (2 ^ A) < 4294967296
    ∧ sumLoop f (2 ^ A) = sampleSum f (2 ^ A)
    ∧ readHighResAveraged B A f = readHighResAveraged B A g
    ∧ readAveraged A f = readAveraged A g := by
  have hA : A ≤ 15 := by omega
  refine ⟨sum_lt_u32 f _ ht hf, sumLoop_eq_sampleSum f _ (sum_lt_u32 f _ ht hf),
    sum_lt_u32 f _ hA hf, sumLoop_eq_sampleSum f _ (sum_lt_u32 f _ hA hf),
    ?_, ?_⟩
  · unfold readHighResAveraged
    rw [sumLoop_congr f g _ hfg]
  · unfold readAveraged
    have hsub : ∀ k, k < 2 ^ A → f k = g k := by
      intro k hk
      apply hfg
      have hle : (2 : Nat) ^ A ≤ 2 ^ (2 * (B - 10) + A) :=
        Nat.pow_le_pow_right (by norm_num) (by omega)
      omega
    rw [sumLoop_congr f g _ hsub]

/-- Witness for C4 at OUTPUT_BITS 12, AVG_POW2 1, all samples maximal. -/
theorem reads_complete_no_overflow_witness :
    sampleSum (fun _ => 1023) (2 ^ (2 * (12 - 10) + 1)) < 4294967296
    ∧ sumLoop (fun _ => 1023) (2 ^ (2 * (12 - 10) + 1))
        = sampleSum (fun _ => 1023) (2 ^ (2 * (12 - 10) + 1))
    ∧ sampleSum (fun _ => 1023) (2 ^ 1) < 4294967296
    ∧ sumLoop (fun _ => 1023) (2 ^ 1) = sampleSum (fun _ => 1023) (2 ^ 1)
    ∧ readHighResAveraged 12 1 (fun _ => 1023)
        = readHighResAveraged 12 1 (fun _ => 1023)
    ∧ readAveraged 1 (fun _ => 1023) = readAveraged 1 (fun _ => 1023) :=
  reads_complete_no_overflow 12 1 (fun _ => 1023) (fun _ => 1023)
    (by norm_num) (by norm_num) (by norm_num) (fun _ => by norm_num)
    (fun _ _ => rfl)

/-- Claim C3 counterexample: at OUTPUT_BITS 11 and AVG_POW2 1, the stream
3,0,0,0,5,0,0,0 makes the collapsed single-pass computation return 2 while
the two-stage oversample-decimate-then-average computation returns 0, so
the two are not equivalent on every sample sequence. -/
theorem collapse_counterexample :
    readHighResAveraged 11 1
        (fun k => ([3, 0, 0, 0, 5, 0, 0, 0] : List Nat).getD k 0)
      ≠ twoStageHighResAveraged 11 1
        (fun k => ([3, 0, 0, 0, 5, 0, 0, 0] : List Nat).getD k 0) := by
  decide

/-- Claim C3 as amended: the collapsed single summation pass agrees with
the two-stage oversample-decimate-then-average computation whenever each
group of 2^(2*extraBits) consecutive samples has a sum divisible by
2^(2*extraBits), so that the decimation step loses nothing to flooring
(in particular on constant streams); in general the two computations can
differ. -/
theorem collapse_equiv_of_exact_groups (B A : Nat) (f : Nat → Nat)
    (hB1 : 10 ≤ B) (hB2 : B ≤ 16) (ht : 2 * (B - 10) + A ≤ 15)
    (hf : ∀ k, f k ≤ 1023)
    (hdiv : ∀ j, j < 2 ^ A → 2 ^ (2 * (B - 10)) ∣
      sampleSum (fun i => f (j * 2 ^ (2 * (B - 10)) + i)) (2 ^ (2 * (B - 10)))) :
    readHighResAveraged B A f = twoStageHighResAveraged B A f := by
  have he : B - 10 ≤ 6 := by omega
  have hMpos : 0 < (2 : Nat) ^ (2 * (B - 10)) := pow_pos (by norm_num) _
  have hL2 : readHighResAveraged B A f
      = (sampleSum f (2 ^ (2 * (B - 10) + A)) / 2 ^ (2 * (B - 10) + A))
          * 2 ^ (B - 10) :=
    highRes_core (B - 10) (2 * (B - 10) + A) f he ht hf
  have hq : sampleSum
        (fun j => sampleSum (fun i => f (j * 2 ^ (2 * (B - 10)) + i))
          (2 ^ (2 * (B - 10))) / 2 ^ (2 * (B - 10))) (2 ^ A) / 2 ^ A ≤ 1023 := by
    apply div_le_bound _ _ _ (pow_pos (by norm_num) A)
    apply sampleSum_le
    intro j
    exact div_le_bound _ _ _ hMpos (sampleSum_le _ 1023 _ (fun k => hf _))
  have hdiveq : sampleSum f (2 ^ (2 * (B - 10) + A)) / 2 ^ (2 * (B - 10) + A)
      = sampleSum
          (fun j => sampleSum (fun i => f (j * 2 ^ (2 * (B - 10)) + i))
            (2 ^ (2 * (B - 10))) / 2 ^ (2 * (B - 10))) (2 ^ A) / 2 ^ A := by
    have hpk : (2 : Nat) ^ (2 * (B - 10) + A) = 2 ^ A * 2 ^ (2 * (B - 10)) := by
      rw [← pow_add]; congr 1; omega
    have hpk2 : (2 : Nat) ^ A * 2 ^ (2 * (B - 10))
        = 2 ^ (2 * (B - 10)) * 2 ^ A := Nat.mul_comm _ _
    rw [hpk, sampleSum_groups f (2 ^ (2 * (B - 10))) (2 ^ A),
      sampleSum_factor _ (2 ^ (2 * (B - 10))) _ hdiv, hpk2,
      Nat.mul_div_mul_left _ _ hMpos]
  have hR : twoStageHighResAveraged B A f
      = (sampleSum
          (fun j => sampleSum (fun i => f (j * 2 ^ (2 * (B - 10)) + i))
            (2 ^ (2 * (B - 10))) / 2 ^ (2 * (B - 10))) (2 ^ A) / 2 ^ A)
          * 2 ^ (B - 10) := by
    simp only [twoStageHighResAveraged, Nat.shiftRight_eq_div_pow,
      Nat.shiftLeft_eq]
    apply Nat.mod_eq_of_lt
    have h2 : (2 : Nat) ^ (B - 10) ≤ 2 ^ 6 := Nat.pow_le_pow_right (by norm_num) he
    have h3 := Nat.mul_le_mul hq h2
    omega
  rw [hL2, hR, hdiveq]

/-- Witness for the amended C3 on a constant stream at OUTPUT_BITS 11 and
AVG_POW2 1. -/
theorem collapse_equiv_of_exact_groups_witness :
    readHighResAveraged 11 1 (fun _ => 4)
      = twoStageHighResAveraged 11 1 (fun _ => 4) :=
  collapse_equiv_of_exact_groups 11 1 (fun _ => 4) (by norm_num) (by norm_num)
    (by norm_num) (fun _ => by norm_num) (by decide)

end ATMega328P
